import Mathlib

/-!
Verification of the QWWAD scattering-rate programs (srcc, srelo, file-io).

Shallow embedding of the numeric kernels of `src/srcc.cpp`, `src/srelo.cpp`
and `src/qwwad/file-io.cpp`.  Machine floating-point arithmetic is modelled
by exact arithmetic in a field; external library calls (sqrt, cos, cosh,
Subband occupation and dispersion queries) are passed in as abstract
function parameters so that each definition mirrors the C source line by
line.  All definitions are polymorphic over a field so that they stay
computable and can be evaluated on concrete rational inputs.
-/

/- ------------------------------------------------------------------ -/
/- Embedding of srcc.cpp: find_Cif_p / find_Cif_m / Iif (lines 344-426) -/
/- ------------------------------------------------------------------ -/

/-- Embedding of `find_Cif_p` (srcc.cpp lines 344-358), expressed via the
backward loop counter: `find_Cif_p_top c` is the value the loop stores at
array index `nz-1-c`.  The seed (`c = 0`) is
`Cif_p[nz-1] = psi_if[nz-1]/exp_qz[nz-1]*dz`, and each further step down
adds `psi_if[iz]/exp_qz[iz]*dz` on top of the previously computed value,
exactly as the loop `Cif_p[iz] = Cif_p[iz+1] + psi_if[iz]/exp_qz[iz]*dz`. -/
def find_Cif_p_top {α : Type} [Field α] (psi_if exp_qz : ℕ → α) (dz : α) (nz : ℕ) : ℕ → α
  | 0 => psi_if (nz - 1) / exp_qz (nz - 1) * dz
  | c + 1 => find_Cif_p_top psi_if exp_qz dz nz c
      + psi_if (nz - 1 - (c + 1)) / exp_qz (nz - 1 - (c + 1)) * dz

/-- Embedding of `find_Cif_p` (srcc.cpp lines 344-358): the suffix
accumulator read at index `iz`, i.e. the backward loop has run from the
top index `nz-1` down to `iz`. -/
def find_Cif_p {α : Type} [Field α] (psi_if exp_qz : ℕ → α) (dz : α) (nz iz : ℕ) : α :=
  find_Cif_p_top psi_if exp_qz dz nz (nz - 1 - iz)

/-- Embedding of `find_Cif_m` (srcc.cpp lines 370-387): seeded at zero,
`Cif_m[iz] = Cif_m[iz-1] + psi_if[iz-1]*exp_qz[iz-1]*dz`. -/
def find_Cif_m {α : Type} [Field α] (psi_if exp_qz : ℕ → α) (dz : α) : ℕ → α
  | 0 => 0
  | iz + 1 => find_Cif_m psi_if exp_qz dz iz + psi_if iz * exp_qz iz * dz

/-- Embedding of `Iif` (srcc.cpp lines 420-426):
`Cif_m[iz0]/exp_qz[iz0] + Cif_p[iz0]*exp_qz[iz0]`. -/
def Iif {α : Type} [Field α] (iz0 : ℕ) (Cif_p Cif_m exp_qz : ℕ → α) : α :=
  Cif_m iz0 / exp_qz iz0 + Cif_p iz0 * exp_qz iz0

/-- Spec-side brute-force matrix element.  Modelled on the spec sentence:
the rectangle-rule sum over `iz` of `psi_jg[iz]*exp(-q*|z[iz]-z[iz0]|)*dz`.
On the uniform grid `z[iz] = z[0] + iz*dz` the exponential factorises as
`exp(-q*|z[iz]-z[iz0]|) = 1 / s^|iz-iz0|` with `s = exp(q*dz)`, which is
how the kernel is written here (exactly, in real arithmetic). -/
def Iif_bruteForce {α : Type} [Field α] (psi_jg : ℕ → α) (s dz : α) (nz iz0 : ℕ) : α :=
  ∑ iz in Finset.range nz, psi_jg iz * (1 / s ^ (max iz iz0 - min iz iz0)) * dz

lemma find_Cif_m_eq {α : Type} [Field α] (psi_if exp_qz : ℕ → α) (dz : α) :
    ∀ n, find_Cif_m psi_if exp_qz dz n = ∑ k in Finset.range n, psi_if k * exp_qz k * dz
  | 0 => by simp [find_Cif_m]
  | n + 1 => by
      rw [find_Cif_m, find_Cif_m_eq psi_if exp_qz dz n, Finset.sum_range_succ]

lemma find_Cif_p_top_eq {α : Type} [Field α] (psi_if exp_qz : ℕ → α) (dz : α) (nz : ℕ)
    (hnz : 1 ≤ nz) :
    ∀ c, c ≤ nz - 1 →
      find_Cif_p_top psi_if exp_qz dz nz c
        = ∑ k in Finset.Ico (nz - 1 - c) nz, psi_if k / exp_qz k * dz := by
  intro c
  induction c with
  | zero =>
      intro _
      rw [find_Cif_p_top, Finset.sum_Ico_eq_sum_range]
      have h2 : nz - (nz - 1 - 0) = 1 := by omega
      rw [h2]
      simp
  | succ c ih =>
      intro hc
      have hc' : c ≤ nz - 1 := by omega
      rw [find_Cif_p_top, ih hc']
      have hlt : nz - 1 - (c + 1) < nz := by omega
      rw [Finset.sum_eq_sum_Ico_succ_bot hlt]
      have h3 : nz - 1 - (c + 1) + 1 = nz - 1 - c := by omega
      rw [h3, add_comm]

lemma find_Cif_p_eq {α : Type} [Field α] (psi_if exp_qz : ℕ → α) (dz : α) (nz iz : ℕ)
    (hiz : iz < nz) :
    find_Cif_p psi_if exp_qz dz nz iz
      = ∑ k in Finset.Ico iz nz, psi_if k / exp_qz k * dz := by
  have h1 : 1 ≤ nz := by omega
  have hc : nz - 1 - iz ≤ nz - 1 := by omega
  rw [find_Cif_p, find_Cif_p_top_eq psi_if exp_qz dz nz h1 (nz - 1 - iz) hc]
  have h2 : nz - 1 - (nz - 1 - iz) = iz := by omega
  rw [h2]

/-- Ratio of two powers of a nonzero base rewritten as a single inverse
power: used to convert the accumulator exponentials into the brute-force
kernel. -/
lemma pow_div_pow_eq_one_div {α : Type} [Field α] (s : α) (hs : s ≠ 0) {k K : ℕ}
    (h : k ≤ K) : s ^ k / s ^ K = 1 / s ^ (K - k) := by
  rw [pow_sub₀ s hs h, mul_comm, one_div, mul_inv, inv_inv, div_eq_mul_inv]

/-- Claim C1: on a uniform grid of `nz ≥ 2` points, writing `s = exp(q*dz)`
(so the tabulated exponentials are `exp_qz[i] = s^i` and the kernel is
`exp(-q*|z[iz]-z[iz0]|) = 1/s^|iz-iz0|`), the O(nz) accumulator evaluation
`Iif iz0 = Cif_m[iz0]/exp_qz[iz0] + Cif_p[iz0]*exp_qz[iz0]`, with `Cif_p`
the backward suffix sum `find_Cif_p` and `Cif_m` the zero-seeded prefix sum
`find_Cif_m`, equals the brute-force O(nz^2) rectangle-rule sum
`Iif_bruteForce` at every index `iz0 < nz` — exactly, in any field, hence
exactly in real arithmetic. -/
theorem Iif_fast_eq_bruteForce {α : Type} [Field α] (psi_jg exp_qz : ℕ → α) (s dz : α)
    (nz iz0 : ℕ) (hs : s ≠ 0) (hnz : 2 ≤ nz) (hiz : iz0 < nz)
    (hexp : ∀ i, i < nz → exp_qz i = s ^ i) :
    Iif iz0 (find_Cif_p psi_jg exp_qz dz nz) (find_Cif_m psi_jg exp_qz dz) exp_qz
      = Iif_bruteForce psi_jg s dz nz iz0 := by
  rw [Iif, Iif_bruteForce, find_Cif_m_eq, find_Cif_p_eq psi_jg exp_qz dz nz iz0 hiz,
      hexp iz0 hiz, Finset.sum_div, Finset.sum_mul, Finset.range_eq_Ico,
      ← Finset.sum_Ico_consecutive _ (Nat.zero_le iz0) (le_of_lt hiz)]
  congr 1
  · refine Finset.sum_congr rfl (fun k hk => ?_)
    have hk2 : k < iz0 := (Finset.mem_Ico.mp hk).2
    rw [hexp k (lt_trans hk2 hiz), max_eq_right (le_of_lt hk2), min_eq_left (le_of_lt hk2),
        ← pow_div_pow_eq_one_div s hs (le_of_lt hk2)]
    ring
  · refine Finset.sum_congr rfl (fun k hk => ?_)
    have hk1 : iz0 ≤ k := (Finset.mem_Ico.mp hk).1
    rw [hexp k (Finset.mem_Ico.mp hk).2, max_eq_left hk1, min_eq_right hk1,
        ← pow_div_pow_eq_one_div s hs hk1]
    ring

/-- Witness for C1 at the concrete input `psi_jg = (1, 1)`, `s = 2`,
`dz = 1`, `nz = 2`, `iz0 = 0`, `exp_qz i = 2^i` over the rationals: both
sides evaluate to `3/2`. -/
theorem Iif_fast_eq_bruteForce_witness :
    Iif 0 (find_Cif_p (fun _ => (1 : ℚ)) (fun i => 2 ^ i) 1 2)
        (find_Cif_m (fun _ => (1 : ℚ)) (fun i => 2 ^ i) 1) (fun i => 2 ^ i)
      = Iif_bruteForce (fun _ => (1 : ℚ)) 2 1 2 0 :=
  Iif_fast_eq_bruteForce (fun _ => (1 : ℚ)) (fun i => 2 ^ i) 2 1 2 0
    (by norm_num) (by norm_num) (by norm_num) (fun i _ => rfl)

/- ------------------------------------------------------------------ -/
/- Embedding of srcc.cpp: the adaptive polarizability loop PI (473-504) -/
/- ------------------------------------------------------------------ -/

/-- Embedding of the base term `P0` inside `PI` (srcc.cpp lines 493-496):
`P0 = m/(pi*hBar*hBar)`, reduced by
`m/(pi*hBar*hBar)*sqrt(1-(2*ki/q_perp)^2)` when `q_perp > 2*ki`.  The
library square root is passed in abstractly as `sqrtFn`. -/
def PI_P0 {α : Type} [LinearOrderedField α] (m hB piv : α) (sqrtFn : α → α)
    (ki q_perp : α) : α :=
  if q_perp > 2 * ki then
    m / (piv * hB * hB) - m / (piv * hB * hB) * sqrtFn (1 - (2 * ki / q_perp) ^ 2)
  else m / (piv * hB * hB)

/-- Energy sample of the adaptive loop in `PI` (srcc.cpp lines 480-500):
`mu` starts at the subband minimum `E` and advances by `dmu` once per
iteration, so iteration `n` sees `mu = E + n*dmu`. -/
def PI_mu {α : Type} [Field α] (E dmu : α) (n : ℕ) : α := E + (n : α) * dmu

/-- Increment `dI` computed by iteration `n` of the `PI` loop (srcc.cpp
line 498): `dI = P0/(4*kB*T*cosh((Ef-mu)/(2*kB*T))^2)`, with the subband
inverse dispersion `isb.k` and the library `cosh` passed in abstractly. -/
def PI_dI {α : Type} [LinearOrderedField α] (m hB piv kB T E Ef q_perp dmu : α)
    (sqrtFn coshFn kFn : α → α) (n : ℕ) : α :=
  PI_P0 m hB piv sqrtFn (kFn (PI_mu E dmu n)) q_perp /
    (4 * kB * T * (coshFn ((Ef - PI_mu E dmu n) / (2 * kB * T))) ^ 2)

/-- Running value of `integral` after `n` iterations of the `PI` loop
(srcc.cpp line 499): `integral += dI*dmu` once per iteration, starting
from zero. -/
def PI_runIntegral {α : Type} [Field α] (dI : ℕ → α) (dmu : α) : ℕ → α
  | 0 => 0
  | n + 1 => PI_runIntegral dI dmu n + dI n * dmu

/-- The do-while guard of `PI` (srcc.cpp line 501), evaluated only after
the increment of iteration `n` has been added to the running integral:
the loop continues exactly while `dI > integral/100`. -/
def PI_continue {α : Type} [LinearOrderedField α] (dI : ℕ → α) (dmu : α) (n : ℕ) : Prop :=
  dI n > PI_runIntegral dI dmu (n + 1) / 100

/-- The base term of the screening integrand is trapped between `0` and
`m/(pi*hBar*hBar)` whenever the square-root routine maps `[0,1]` into
`[0,1]` and the dispersion value `ki` is non-negative. -/
lemma PI_P0_bounds (m hB piv : ℝ) (sqrtFn : ℝ → ℝ) (ki q_perp : ℝ)
    (hm : 0 ≤ m) (hpiv : 0 < piv) (hhB : hB ≠ 0) (hki : 0 ≤ ki)
    (hsq : ∀ x, 0 ≤ x → x ≤ 1 → 0 ≤ sqrtFn x ∧ sqrtFn x ≤ 1) :
    0 ≤ PI_P0 m hB piv sqrtFn ki q_perp ∧
      PI_P0 m hB piv sqrtFn ki q_perp ≤ m / (piv * hB * hB) := by
  have hden : 0 < piv * hB * hB := by
    rw [mul_assoc]
    exact mul_pos hpiv (mul_self_pos.mpr hhB)
  have hB0 : 0 ≤ m / (piv * hB * hB) := div_nonneg hm hden.le
  rw [PI_P0]
  split_ifs with h
  · have hq : 0 < q_perp := lt_of_le_of_lt (by linarith) h
    have hr0 : 0 ≤ 2 * ki / q_perp := div_nonneg (by linarith) hq.le
    have hr1 : 2 * ki / q_perp < 1 := (div_lt_one hq).mpr h
    have hx0 : 0 ≤ 1 - (2 * ki / q_perp) ^ 2 := by nlinarith
    have hx1 : 1 - (2 * ki / q_perp) ^ 2 ≤ 1 := by nlinarith
    obtain ⟨hs0, hs1⟩ := hsq _ hx0 hx1
    constructor
    · nlinarith
    · nlinarith
  · exact ⟨hB0, le_refl _⟩

/-- Claim C2: the adaptive polarizability loop of `PI` terminates.  The
guard `PI_continue` is evaluated only after the increment of the current
iteration has been accumulated (so iteration `0` always runs), and the
loop continues exactly while `dI > integral/100`.  Under the claim's
physical side conditions — non-negative dispersion, a square root mapping
`[0,1]` into `[0,1]`, positive `kB*T` and `dmu`, and a thermal weighting
factor `1/(4*kB*T*cosh((Ef-mu)/(2*kB*T))^2)` that decays to zero as the
energy sample grows — there is a first iteration `N` at which the guard
fails: iterations `0..N` (at least one) execute and the loop then stops. -/
theorem PI_loop_terminates (m hB piv kB T E Ef q_perp dmu : ℝ)
    (sqrtFn coshFn kFn : ℝ → ℝ)
    (hdmu : 0 < dmu) (hm : 0 ≤ m) (hpiv : 0 < piv) (hhB : hB ≠ 0)
    (hkBT : 0 < kB * T)
    (hsq : ∀ x, 0 ≤ x → x ≤ 1 → 0 ≤ sqrtFn x ∧ sqrtFn x ≤ 1)
    (hk : ∀ x, 0 ≤ kFn x)
    (hdecay : Filter.Tendsto
      (fun n : ℕ => 1 / (4 * kB * T * (coshFn ((Ef - PI_mu E dmu n) / (2 * kB * T))) ^ 2))
      Filter.atTop (nhds 0)) :
    ∃ N, (∀ k < N, PI_continue (PI_dI m hB piv kB T E Ef q_perp dmu sqrtFn coshFn kFn) dmu k)
      ∧ ¬ PI_continue (PI_dI m hB piv kB T E Ef q_perp dmu sqrtFn coshFn kFn) dmu N
      ∧ 1 ≤ N + 1 := by
  set dI := PI_dI m hB piv kB T E Ef q_perp dmu sqrtFn coshFn kFn with hdIdef
  have hwn : ∀ n : ℕ,
      0 ≤ 1 / (4 * kB * T * (coshFn ((Ef - PI_mu E dmu n) / (2 * kB * T))) ^ 2) := by
    intro n
    apply one_div_nonneg.mpr
    have h2 : (0:ℝ) ≤ (coshFn ((Ef - PI_mu E dmu n) / (2 * kB * T))) ^ 2 := sq_nonneg _
    nlinarith
  have hP0 : ∀ n : ℕ, 0 ≤ PI_P0 m hB piv sqrtFn (kFn (PI_mu E dmu n)) q_perp ∧
      PI_P0 m hB piv sqrtFn (kFn (PI_mu E dmu n)) q_perp ≤ m / (piv * hB * hB) :=
    fun n => PI_P0_bounds m hB piv sqrtFn _ q_perp hm hpiv hhB (hk _) hsq
  have hdInn : ∀ n, 0 ≤ dI n := by
    intro n
    rw [hdIdef, PI_dI, div_eq_mul_one_div]
    exact mul_nonneg (hP0 n).1 (hwn n)
  have hdIle : ∀ n, dI n ≤ (m / (piv * hB * hB)) *
      (1 / (4 * kB * T * (coshFn ((Ef - PI_mu E dmu n) / (2 * kB * T))) ^ 2)) := by
    intro n
    rw [hdIdef, PI_dI, div_eq_mul_one_div]
    exact mul_le_mul_of_nonneg_right (hP0 n).2 (hwn n)
  have hdI0 : Filter.Tendsto dI Filter.atTop (nhds 0) := by
    apply squeeze_zero hdInn hdIle
    have := hdecay.const_mul (m / (piv * hB * hB))
    simpa using this
  have hex : ∃ n, ¬ PI_continue dI dmu n := by
    by_contra hcon
    push_neg at hcon
    have h0 : dI 0 * dmu / 100 < dI 0 := by
      have h := hcon 0
      rw [PI_continue] at h
      simpa [PI_runIntegral] using h
    have hdI0pos : 0 < dI 0 := by
      rcases lt_or_eq_of_le (hdInn 0) with h | h
      · exact h
      · exfalso
        rw [← h] at h0
        simp at h0
    have hS : ∀ n, dI 0 * dmu ≤ PI_runIntegral dI dmu (n + 1) := by
      intro n
      induction n with
      | zero => simp [PI_runIntegral]
      | succ n ih =>
          have hnn : 0 ≤ dI (n + 1) * dmu := mul_nonneg (hdInn _) hdmu.le
          have hstep : PI_runIntegral dI dmu (n + 2)
              = PI_runIntegral dI dmu (n + 1) + dI (n + 1) * dmu := rfl
          calc dI 0 * dmu ≤ PI_runIntegral dI dmu (n + 1) := ih
            _ ≤ PI_runIntegral dI dmu (n + 2) := by
                rw [hstep]
                linarith
    have hlow : ∀ n, dI 0 * dmu / 100 < dI n := by
      intro n
      have hc := hcon n
      rw [PI_continue] at hc
      have hSn := hS n
      linarith
    have hε : 0 < dI 0 * dmu / 100 := by positivity
    obtain ⟨n, hn⟩ := (hdI0.eventually_lt_const hε).exists
    exact absurd (hlow n) (not_lt.mpr hn.le)
  classical
  refine ⟨Nat.find hex, fun k hk2 => ?_, Nat.find_spec hex, by omega⟩
  have := Nat.find_min hex hk2
  exact not_not.mp this

/-- Witness for C2: at `m = hB = piv = kB = T = dmu = 1`, `E = Ef = 0`,
`q_perp = 0`, identity square root and cosh stand-ins and zero dispersion,
the thermal weight is `1/n^2` which decays, so the loop stops. -/
theorem PI_loop_terminates_witness :
    ∃ N, (∀ k < N, PI_continue
        (PI_dI 1 1 1 1 1 0 0 0 1 (fun x : ℝ => x) (fun x : ℝ => x) (fun _ : ℝ => 0)) 1 k)
      ∧ ¬ PI_continue
        (PI_dI 1 1 1 1 1 0 0 0 1 (fun x : ℝ => x) (fun x : ℝ => x) (fun _ : ℝ => 0)) 1 N
      ∧ 1 ≤ N + 1 := by
  apply PI_loop_terminates 1 1 1 1 1 0 0 0 1 (fun x : ℝ => x) (fun x : ℝ => x)
    (fun _ : ℝ => 0)
  · norm_num
  · norm_num
  · norm_num
  · norm_num
  · norm_num
  · exact fun x h0 h1 => ⟨h0, h1⟩
  · exact fun x => le_refl 0
  · have hle : ∀ n : ℕ, ((n : ℝ)) ≤ ((n : ℝ)) ^ 2 := by
      intro n
      rcases Nat.eq_zero_or_pos n with h | h
      · simp [h]
      · have h1 : (1 : ℝ) ≤ (n : ℝ) := by exact_mod_cast h
        nlinarith
    have h2 : Filter.Tendsto (fun n : ℕ => ((n : ℝ)) ^ 2) Filter.atTop Filter.atTop :=
      Filter.tendsto_atTop_mono hle (tendsto_natCast_atTop_atTop)
    have h3 : Filter.Tendsto (fun n : ℕ => (((n : ℝ)) ^ 2)⁻¹) Filter.atTop (nhds 0) :=
      tendsto_inv_atTop_zero.comp h2
    have heq : (fun n : ℕ =>
        1 / (4 * 1 * 1 * ((fun x : ℝ => x) ((0 - PI_mu 0 1 n) / (2 * 1 * 1))) ^ 2))
        = fun n : ℕ => (((n : ℝ)) ^ 2)⁻¹ := by
      funext n
      rw [PI_mu, one_div]
      congr 1
      ring
    rw [heq]
    exact h3

/- ------------------------------------------------------------------ -/
/- Embedding of srcc.cpp: lookup_ff / lookup_PI (lines 570-623)        -/
/- ------------------------------------------------------------------ -/

/-- Result of a table lookup: a value, the fatal out-of-range exit, or an
out-of-bounds array read (undefined behaviour in the C source). -/
inductive Lookup (α : Type) where
  | ok (v : α)
  | rangeError
  | oobRead
  deriving DecidableEq

/-- The linear forward scan `while(q_perp >= table[iq].a) iq++;` shared by
`lookup_ff` and `lookup_PI` (srcc.cpp lines 580-583 and 609-612), started
at `iq = 0`.  `fuel` is the number of table entries at or above the
current index, so `fuel = 0` means the scan is about to dereference
`table[nq]`, one element past the table: an out-of-bounds read. -/
def lookup_scan {α : Type} [LinearOrderedField α] (a : ℕ → α) (q_perp : α) :
    ℕ → ℕ → Option ℕ
  | _, 0 => none
  | iq, fuel + 1 => if q_perp ≥ a iq then lookup_scan a q_perp (iq + 1) fuel else some iq

/-- Embedding of `lookup_ff` (srcc.cpp lines 570-594): fatal exit when
`q_perp` exceeds the last tabulated point `a[nq-1]`, otherwise a linear
scan to the first entry above `q_perp` followed by linear interpolation
between the entries directly below and above. -/
def lookup_ff {α : Type} [LinearOrderedField α] (a b : ℕ → α) (nq : ℕ) (q_perp : α) :
    Lookup α :=
  if q_perp > a (nq - 1) then Lookup.rangeError
  else
    match lookup_scan a q_perp 0 nq with
    | none => Lookup.oobRead
    | some iq =>
        Lookup.ok (b (iq - 1) + (b iq - b (iq - 1)) * (q_perp - a (iq - 1)) / (a iq - a (iq - 1)))

/-- Embedding of `lookup_PI` (srcc.cpp lines 599-623): textually the same
algorithm as `lookup_ff`, applied to the screening table. -/
def lookup_PI {α : Type} [LinearOrderedField α] (a b : ℕ → α) (nq : ℕ) (q_perp : α) :
    Lookup α :=
  if q_perp > a (nq - 1) then Lookup.rangeError
  else
    match lookup_scan a q_perp 0 nq with
    | none => Lookup.oobRead
    | some iq =>
        Lookup.ok (b (iq - 1) + (b iq - b (iq - 1)) * (q_perp - a (iq - 1)) / (a iq - a (iq - 1)))

/-- Claim C3 is false on the code: querying a table exactly at its last
stored point makes the scan loop run past the end of the array.  At the
two-point table `a = (0, 1)`, `b = (10, 20)` the query `q_perp = 1` (the
last stored `q`) passes the range guard (`1 > 1` is false) but the scan
condition `q_perp >= a[iq]` holds at `iq = 0` and `iq = 1`, so the loop
next dereferences `table[2]`, one element past the table, instead of
returning the stored value `20`. -/
theorem lookup_ff_last_entry_oob :
    lookup_ff (fun i => (i : ℚ)) (fun i => 10 * (i : ℚ) + 10) 2 1 = Lookup.oobRead := by
  decide

/-- Claim C7: whenever the query strictly exceeds the largest tabulated
point `a[nq-1]`, both `lookup_ff` and `lookup_PI` take the fatal
diagnostic branch immediately — no scan, no interpolation, no value. -/
theorem lookup_range_error_fatal {α : Type} [LinearOrderedField α] (a b : ℕ → α)
    (nq : ℕ) (q_perp : α) (h : q_perp > a (nq - 1)) :
    lookup_ff a b nq q_perp = Lookup.rangeError ∧
      lookup_PI a b nq q_perp = Lookup.rangeError := by
  constructor
  · rw [lookup_ff, if_pos h]
  · rw [lookup_PI, if_pos h]

/-- Witness for C7: a query of `5` against a two-point table with maximum
stored wavevector `1` is rejected fatally by both lookups. -/
theorem lookup_range_error_fatal_witness :
    lookup_ff (fun i => (i : ℚ)) (fun i => (i : ℚ)) 2 5 = Lookup.rangeError ∧
      lookup_PI (fun i => (i : ℚ)) (fun i => (i : ℚ)) 2 5 = Lookup.rangeError :=
  lookup_range_error_fatal (fun i => (i : ℚ)) (fun i => (i : ℚ)) 2 5 (by norm_num)

/- ------------------------------------------------------------------ -/
/- Embedding of srcc.cpp: the screening reduction branch (490-496)     -/
/- ------------------------------------------------------------------ -/

/-- Claim C4 is false on the code: it asserts the base term is left at its
base value `m/(pi*hBar*hBar)` whenever it is not the case that
`q_perp < 2*ki`.  At `ki = 1`, `q_perp = 4` we have `¬(4 < 2*1)`, yet the
code takes its reduction branch (guarded by `q_perp > 2*ki`, the opposite
inequality) and returns `1 - sqrt(3/4) < 1`, not the base value. -/
theorem PI_P0_claim_counterexample :
    ¬ ((4 : ℝ) < 2 * 1) ∧ PI_P0 1 1 1 Real.sqrt 1 4 ≠ 1 / (1 * 1 * 1) := by
  refine ⟨by norm_num, ne_of_lt ?_⟩
  rw [PI_P0, if_pos (by norm_num : (4 : ℝ) > 2 * 1)]
  have h34 : (0 : ℝ) < Real.sqrt (1 - (2 * 1 / 4) ^ 2) := Real.sqrt_pos.mpr (by norm_num)
  nlinarith

/-- Claim C4, amended: the base term `P0 = m/(pi*hBar*hBar)` is reduced by
`m/(pi*hBar*hBar)*sqrt(1-(2*ki/q_perp)^2)` exactly when `q_perp > 2*ki`
(the claim had the inequality reversed), and is left at its base value
when `q_perp <= 2*ki`.  When the reduction applies it is a genuine strict
reduction: the square-root argument lies in `(0,1]`, so the result is
strictly below the base value. -/
theorem PI_P0_reduction_amended (m hB piv ki q_perp : ℝ)
    (hm : 0 < m) (hpiv : 0 < piv) (hhB : hB ≠ 0) (hki : 0 ≤ ki) :
    (2 * ki < q_perp →
      PI_P0 m hB piv Real.sqrt ki q_perp
          = m / (piv * hB * hB) * (1 - Real.sqrt (1 - (2 * ki / q_perp) ^ 2)) ∧
        PI_P0 m hB piv Real.sqrt ki q_perp < m / (piv * hB * hB)) ∧
      (q_perp ≤ 2 * ki → PI_P0 m hB piv Real.sqrt ki q_perp = m / (piv * hB * hB)) := by
  have hden : 0 < piv * hB * hB := by
    rw [mul_assoc]
    exact mul_pos hpiv (mul_self_pos.mpr hhB)
  have hbase : 0 < m / (piv * hB * hB) := div_pos hm hden
  constructor
  · intro h
    rw [PI_P0, if_pos h]
    have hq : 0 < q_perp := lt_of_le_of_lt (by linarith) h
    have hr0 : 0 ≤ 2 * ki / q_perp := div_nonneg (by linarith) hq.le
    have hr1 : 2 * ki / q_perp < 1 := (div_lt_one hq).mpr h
    have hx : 0 < 1 - (2 * ki / q_perp) ^ 2 := by nlinarith
    have hs : 0 < Real.sqrt (1 - (2 * ki / q_perp) ^ 2) := Real.sqrt_pos.mpr hx
    constructor
    · ring
    · nlinarith [mul_pos hbase hs]
  · intro h
    rw [PI_P0, if_neg (not_lt.mpr h)]

/-- Witness for the amended C4: at `ki = 1`, `q_perp = 4` the reduction
branch applies and the value drops strictly below the base term. -/
theorem PI_P0_reduction_amended_witness :
    (2 * (1 : ℝ) < 4) ∧ PI_P0 1 1 1 Real.sqrt 1 4 < 1 / (1 * 1 * 1) :=
  ⟨by norm_num,
    ((PI_P0_reduction_amended 1 1 1 1 4 (by norm_num) (by norm_num) (by norm_num)
      (by norm_num)).1 (by norm_num)).2⟩

/- ------------------------------------------------------------------ -/
/- Embedding of srcc.cpp: the innermost theta sample of main (277-303) -/
/- ------------------------------------------------------------------ -/

/-- Embedding of the discriminant computed at each theta sample
(srcc.cpp line 286):
`q_perpsqr4 = 2*kij*kij + Deltak0sqr - 2*kij*sqrt(kij*kij+Deltak0sqr)*cos(theta)`,
with the library square root and cosine passed in abstractly. -/
def cc_q_perpsqr4 {α : Type} [LinearOrderedField α] (sqrtFn cosFn : α → α)
    (kij Deltak0sqr theta : α) : α :=
  2 * kij * kij + Deltak0sqr - 2 * kij * sqrtFn (kij * kij + Deltak0sqr) * cosFn theta

/-- Embedding of the screened rate term accumulated inside the guard
(srcc.cpp lines 293-297):
`(lookup_ff(q_perp) / (q_perp + 2*pi*e*e*lookup_PI(q_perp)*lookup_ff(q_perp)/(4*pi*epsilon)))^2 * P * kj`,
with the two table lookups passed in abstractly as `ffAt` and `scrAt`. -/
def cc_rate_term {α : Type} [LinearOrderedField α] (ffAt scrAt : α → α)
    (e piv epsilon P kj q_perp : α) : α :=
  (ffAt q_perp / (q_perp + 2 * piv * e * e * scrAt q_perp * ffAt q_perp / (4 * piv * epsilon))) ^ 2
    * P * kj

/-- Embedding of one theta sample of the innermost quadrature loop
(srcc.cpp lines 286-298): if the discriminant `q_perpsqr4` is
non-negative, `q_perp = sqrt(q_perpsqr4)/2` is formed and the rate term is
added to the accumulator `W`; otherwise nothing happens.  The second
component records every argument handed to the square root that produces
`q_perp`, so that the safety property "that square root never sees a
negative argument" can be stated about the step itself. -/
def cc_theta_step {α : Type} [LinearOrderedField α] (sqrtFn cosFn ffAt scrAt : α → α)
    (e piv epsilon P kj kij Deltak0sqr theta W : α) : α × List α :=
  if 0 ≤ cc_q_perpsqr4 sqrtFn cosFn kij Deltak0sqr theta then
    (W + cc_rate_term ffAt scrAt e piv epsilon P kj
        (sqrtFn (cc_q_perpsqr4 sqrtFn cosFn kij Deltak0sqr theta) / 2),
      [cc_q_perpsqr4 sqrtFn cosFn kij Deltak0sqr theta])
  else (W, [])

/-- Claim C5: at any theta sample whose discriminant
`4*q_perp^2 = 2*kij^2 + Deltak0sqr - 2*kij*sqrt(kij^2+Deltak0sqr)*cos(theta)`
is negative, the accumulator `Wijfg` is returned unchanged and no square
root is taken (a silent skip, no error value of any kind); and every
argument the step ever hands to the square root producing `q_perp` is
non-negative. -/
theorem cc_theta_step_silent_skip {α : Type} [LinearOrderedField α]
    (sqrtFn cosFn ffAt scrAt : α → α) (e piv epsilon P kj kij Deltak0sqr theta W : α) :
    (cc_q_perpsqr4 sqrtFn cosFn kij Deltak0sqr theta < 0 →
      cc_theta_step sqrtFn cosFn ffAt scrAt e piv epsilon P kj kij Deltak0sqr theta W
        = (W, [])) ∧
      ∀ x ∈ (cc_theta_step sqrtFn cosFn ffAt scrAt e piv epsilon P kj kij
          Deltak0sqr theta W).2, 0 ≤ x := by
  constructor
  · intro h
    rw [cc_theta_step, if_neg (not_le.mpr h)]
  · intro x hx
    rw [cc_theta_step] at hx
    split_ifs at hx with h
    · simp only [List.mem_singleton] at hx
      rw [hx]
      exact h
    · simp at hx

/-- Witness for C5: with identity stand-ins for the library functions,
`kij = 0`, `Deltak0sqr = -1` gives a negative discriminant, and the step
leaves the accumulator `5` untouched. -/
theorem cc_theta_step_silent_skip_witness :
    cc_theta_step (fun x : ℚ => x) (fun x : ℚ => x) (fun x : ℚ => x) (fun x : ℚ => x)
        1 1 1 1 1 0 (-1) 0 5 = (5, []) :=
  (cc_theta_step_silent_skip (fun x : ℚ => x) (fun x : ℚ => x) (fun x : ℚ => x)
      (fun x : ℚ => x) 1 1 1 1 1 0 (-1) 0 5).1 (by norm_num [cc_q_perpsqr4])

/- ------------------------------------------------------------------ -/
/- Embedding of srelo.cpp: energy-conservation gate (lines 245-271)    -/
/- ------------------------------------------------------------------ -/

/-- Modelled from the spec: the Heaviside step function `Theta` used at
srelo.cpp lines 253-254 lives in the maths-helpers library, which is not
part of the four source files; the spec describes the gate as "zero the
rate unless the resulting final kinetic energy is non-negative (a step
function, not a smooth cutoff)". -/
def Theta {α : Type} [LinearOrderedField α] (x : α) : α :=
  if 0 ≤ x then 1 else 0

/-- Embedding of the per-sample post-processing of one scattering rate in
srelo.cpp lines 245-271, shared by emission (`Delta = Delta_e`) and
absorption (`Delta = Delta_a`): the final kinetic energy is
`Ef_fin = Eki - Delta`; the rate is multiplied by `Theta(Ef_fin)`; then,
if final-state blocking is enabled and `Ef_fin >= 0`, the final
wavevector `kf = sqrt(Ef_fin*2*m)/hBar` is formed and the rate is
multiplied by `(1 - f_FD_k(kf))`, with the library square root and the
subband occupation passed in abstractly. -/
def srelo_gate_and_block {α : Type} [LinearOrderedField α] (W0 Eki Delta m hB : α)
    (b_flag : Bool) (sqrtFn f_FD_k : α → α) : α :=
  if b_flag = true ∧ 0 ≤ Eki - Delta then
    W0 * Theta (Eki - Delta) * (1 - f_FD_k (sqrtFn ((Eki - Delta) * 2 * m) / hB))
  else W0 * Theta (Eki - Delta)

/-- Claim C6: whenever the final kinetic energy for emission
`Eki - Delta_e` is negative, the recorded emission rate is exactly zero,
and likewise for absorption with `Eki - Delta_a` — a hard step-function
gate, for any value of the blocking flag and of the other inputs. -/
theorem srelo_energy_gate_zero {α : Type} [LinearOrderedField α]
    (W0e W0a Eki Delta_e Delta_a m hB : α) (b_flag : Bool) (sqrtFn f_FD_k : α → α) :
    (Eki - Delta_e < 0 →
      srelo_gate_and_block W0e Eki Delta_e m hB b_flag sqrtFn f_FD_k = 0) ∧
      (Eki - Delta_a < 0 →
        srelo_gate_and_block W0a Eki Delta_a m hB b_flag sqrtFn f_FD_k = 0) := by
  constructor
  · intro h
    rw [srelo_gate_and_block, if_neg (by
      intro hc
      exact absurd hc.2 (not_le.mpr h)), Theta, if_neg (not_le.mpr h), mul_zero]
  · intro h
    rw [srelo_gate_and_block, if_neg (by
      intro hc
      exact absurd hc.2 (not_le.mpr h)), Theta, if_neg (not_le.mpr h), mul_zero]

/-- Witness for C6: with `Eki = 1` and phonon offsets `Delta_e = 3`,
`Delta_a = 2`, both final kinetic energies are negative and both recorded
rates vanish, even with blocking enabled and a nonzero occupation. -/
theorem srelo_energy_gate_zero_witness :
    srelo_gate_and_block (7 : ℚ) 1 3 1 1 true (fun x => x) (fun _ => 1 / 2) = 0 ∧
      srelo_gate_and_block (9 : ℚ) 1 2 1 1 true (fun x => x) (fun _ => 1 / 2) = 0 :=
  ⟨(srelo_energy_gate_zero 7 9 1 3 2 1 1 true (fun x => x) (fun _ => 1 / 2)).1
      (by norm_num),
    (srelo_energy_gate_zero 7 9 1 3 2 1 1 true (fun x => x) (fun _ => 1 / 2)).2
      (by norm_num)⟩

/- ------------------------------------------------------------------ -/
/- Embedding of srcc.cpp: Deltak0sqr (lines 237-241)                   -/
/- ------------------------------------------------------------------ -/

/-- Embedding of the momentum-mismatch computation in srcc.cpp lines
239-241: `Deltak0sqr = 0`, overwritten with
`4*m*(Ei+Ej-Ef-Eg)/(hBar*hBar)` only when `i+j != f+g`. -/
def cc_Deltak0sqr {α : Type} [Field α] (m hB Ei Ej Ef Eg : α) (i j f g : ℕ) : α :=
  if i + j ≠ f + g then 4 * m * (Ei + Ej - Ef - Eg) / (hB * hB) else 0

/-- Claim C8: `Deltak0sqr` equals `4*m*(Ei+Ej-Ef-Eg)/hBar^2` when the
subband index sum is not conserved, and equals exactly zero whenever
`i+j = f+g`, regardless of the subband energies. -/
theorem cc_Deltak0sqr_cases {α : Type} [Field α] (m hB Ei Ej Ef Eg : α) (i j f g : ℕ) :
    (i + j ≠ f + g →
      cc_Deltak0sqr m hB Ei Ej Ef Eg i j f g = 4 * m * (Ei + Ej - Ef - Eg) / (hB * hB)) ∧
      (i + j = f + g → cc_Deltak0sqr m hB Ei Ej Ef Eg i j f g = 0) := by
  constructor
  · intro h
    rw [cc_Deltak0sqr, if_pos h]
  · intro h
    rw [cc_Deltak0sqr, if_neg (not_not.mpr h)]

/-- Witness for C8: the transition (1,1)->(2,1) has a non-conserved index
sum and picks up the kinetic mismatch, while (1,2)->(2,1) has a conserved
index sum and gets exactly zero even though its energies do not cancel. -/
theorem cc_Deltak0sqr_cases_witness :
    cc_Deltak0sqr (1 : ℚ) 1 1 1 2 1 1 1 2 1 = 4 * 1 * (1 + 1 - 2 - 1) / (1 * 1) ∧
      cc_Deltak0sqr (1 : ℚ) 1 1 1 2 1 1 2 2 1 = 0 :=
  ⟨(cc_Deltak0sqr_cases (1 : ℚ) 1 1 1 2 1 1 1 2 1).1 (by norm_num),
    (cc_Deltak0sqr_cases (1 : ℚ) 1 1 1 2 1 1 2 2 1).2 (by norm_num)⟩

/- ------------------------------------------------------------------ -/
/- Embedding of qwwad/file-io.cpp: validation checks (lines 43-73)     -/
/- ------------------------------------------------------------------ -/

/-- Outcome of a validation check: either the value passes through
unchanged, or a `std::domain_error` naming the offending value is thrown
for the caller to handle. -/
inductive CheckResult (α : Type) where
  | ok (x : α)
  | domainError (x : α)
  deriving DecidableEq

/-- Embedding of `check_c_interval_0_1` (file-io.cpp lines 43-51): throws
a domain error naming the value when it lies strictly outside the closed
interval `[0,1]`. -/
def check_c_interval_0_1 {α : Type} [LinearOrderedField α] (px : α) : CheckResult α :=
  if px < 0 ∨ px > 1 then CheckResult.domainError px else CheckResult.ok px

/-- Embedding of `check_positive` (file-io.cpp lines 53-62): throws a
domain error naming the value when it is non-positive. -/
def check_positive {α : Type} [LinearOrderedField α] (pW : α) : CheckResult α :=
  if pW ≤ 0 then CheckResult.domainError pW else CheckResult.ok pW

/-- Embedding of `check_not_negative` (file-io.cpp lines 64-73): throws a
domain error naming the value when it is negative. -/
def check_not_negative {α : Type} [LinearOrderedField α] (pW : α) : CheckResult α :=
  if pW < 0 then CheckResult.domainError pW else CheckResult.ok pW

/-- Claim C9: `check_c_interval_0_1` throws a domain error naming the
value if and only if it is strictly below 0 or strictly above 1 (both
endpoints are accepted); `check_positive` throws if and only if the value
is `<= 0`; `check_not_negative` throws if and only if the value is `< 0`;
and in every non-throwing case the checked value comes back unchanged. -/
theorem check_functions_spec {α : Type} [LinearOrderedField α] (x : α) :
    (check_c_interval_0_1 x = CheckResult.domainError x ↔ x < 0 ∨ 1 < x) ∧
      (0 ≤ x → x ≤ 1 → check_c_interval_0_1 x = CheckResult.ok x) ∧
      check_c_interval_0_1 (0 : α) = CheckResult.ok 0 ∧
      check_c_interval_0_1 (1 : α) = CheckResult.ok 1 ∧
      (check_positive x = CheckResult.domainError x ↔ x ≤ 0) ∧
      (0 < x → check_positive x = CheckResult.ok x) ∧
      (check_not_negative x = CheckResult.domainError x ↔ x < 0) ∧
      (0 ≤ x → check_not_negative x = CheckResult.ok x) := by
  refine ⟨?_, ?_, ?_, ?_, ?_, ?_, ?_, ?_⟩
  · rw [check_c_interval_0_1]
    split_ifs with h
    · simpa using h
    · simp only [not_or, not_lt] at h
      constructor
      · intro hc
        exact absurd hc (by simp)
      · intro hc
        rcases hc with hc | hc
        · exact absurd hc (not_lt.mpr h.1)
        · exact absurd hc (not_lt.mpr h.2)
  · intro h0 h1
    rw [check_c_interval_0_1, if_neg (by
      simp only [not_or, not_lt]
      exact ⟨h0, h1⟩)]
  · rw [check_c_interval_0_1, if_neg (by norm_num)]
  · rw [check_c_interval_0_1, if_neg (by norm_num)]
  · rw [check_positive]
    split_ifs with h
    · simpa using h
    · constructor
      · intro hc
        exact absurd hc (by simp)
      · intro hc
        exact absurd hc h
  · intro h
    rw [check_positive, if_neg (not_le.mpr h)]
  · rw [check_not_negative]
    split_ifs with h
    · simpa using h
    · constructor
      · intro hc
        exact absurd hc (by simp)
      · intro hc
        exact absurd hc h
  · intro h
    rw [check_not_negative, if_neg (not_lt.mpr h)]

/-- Witness for C9: the probability `1/2`, the width `3` and the value `0`
all pass their respective checks unchanged. -/
theorem check_functions_spec_witness :
    check_c_interval_0_1 (1 / 2 : ℚ) = CheckResult.ok (1 / 2) ∧
      check_positive (3 : ℚ) = CheckResult.ok 3 ∧
      check_not_negative (0 : ℚ) = CheckResult.ok 0 :=
  ⟨(check_functions_spec (1 / 2 : ℚ)).2.1 (by norm_num) (by norm_num),
    (check_functions_spec (3 : ℚ)).2.2.2.2.2.1 (by norm_num),
    (check_functions_spec (0 : ℚ)).2.2.2.2.2.2.2 (by norm_num)⟩

/- ------------------------------------------------------------------ -/
/- Embedding of srelo.cpp: the initial wave-vector grid (204-216)      -/
/- ------------------------------------------------------------------ -/

/-- Embedding of the step length `dki = kimax/nki` of srelo.cpp line 205
(note: the divisor is `nki`, not `nki-1`). -/
def srelo_dki {α : Type} [Field α] (kimax : α) (nki : ℕ) : α :=
  kimax / (nki : α)

/-- Embedding of the initial wave-vector sample `ki = dki*iki` of
srelo.cpp line 216, for loop index `0 <= iki < nki`. -/
def srelo_ki {α : Type} [Field α] (kimax : α) (nki iki : ℕ) : α :=
  srelo_dki kimax nki * (iki : α)

/-- Claim C10: for every positive cutoff `kimax` and sample count
`nki >= 1`, the initial wave-vector grid starts exactly at zero and every
sample `ki = iki*(kimax/nki)` with `iki < nki` stays strictly below the
cutoff `kimax`, so the cutoff energy itself is never evaluated. -/
theorem srelo_ki_grid_spec {α : Type} [LinearOrderedField α] (kimax : α) (nki : ℕ)
    (hn : 1 ≤ nki) (hk : 0 < kimax) :
    srelo_ki kimax nki 0 = 0 ∧ ∀ iki, iki < nki → srelo_ki kimax nki iki < kimax := by
  constructor
  · rw [srelo_ki]
    simp
  · intro iki hiki
    rw [srelo_ki, srelo_dki, div_mul_eq_mul_div, mul_comm, mul_div_assoc]
    have hnpos : (0 : α) < (nki : α) := by
      have : (0 : ℕ) < nki := hn
      exact_mod_cast this
    have hfrac : (iki : α) / (nki : α) < 1 := by
      rw [div_lt_one hnpos]
      exact_mod_cast hiki
    calc (iki : α) * (kimax / (nki : α)) = kimax * ((iki : α) / (nki : α)) := by ring
      _ < kimax * 1 := by
          exact mul_lt_mul_of_pos_left hfrac hk
      _ = kimax := mul_one kimax

/-- Witness for C10: with `kimax = 3` and `nki = 4` the grid starts at
zero and all four samples stay strictly below `3`. -/
theorem srelo_ki_grid_spec_witness :
    srelo_ki (3 : ℚ) 4 0 = 0 ∧ ∀ iki, iki < 4 → srelo_ki (3 : ℚ) 4 iki < 3 :=
  srelo_ki_grid_spec (3 : ℚ) 4 (by norm_num) (by norm_num)
